import Mathlib

/-!
Shallow embedding of the scirust-rf Touchstone parser
(src/touchstone.rs, src/frequency.rs, src/network.rs, src/lib.rs).

Modelling conventions:
* A physical line of the input file is a `List Char` (`Line`), with the
  trailing newline stripped; the only places the retained newline of
  Rust's `read_line` is observable are the `[number of ...]` integer
  directives, which no claim touches.
* `f64` values are modelled as `ℚ`; the textual float parser follows the
  grammar of Rust's `f64::FromStr` (sign, digits, optional fraction,
  optional exponent, full-string match), omitting inf/nan (not
  representable in `ℚ`, not exercised by any claim) and rounding.
* The repository has a single error type `ParseError` (src/lib.rs); a
  returned `Err(ParseError)` is modelled as `POutcome.err`.  A Rust
  panic (`unwrap`, `unimplemented!`, out-of-bounds indexing) is modelled
  as `POutcome.crash`, distinct from the typed error.
* All inputs handled by the claims are ASCII, so `Char.toLower` /
  `Char.isWhitespace` stand in for Rust's Unicode versions.
-/

namespace SRF

abbrev Line := List Char

/-- Convert a string literal to the `List Char` line representation. -/
def s2l (s : String) : Line := s.data

/-- Outcome of running a fallible piece of the Rust code: `ok` a value,
`err` the typed `ParseError`, or `crash` for a Rust panic. -/
inductive POutcome (α : Type) where
  | ok (a : α)
  | err
  | crash
  deriving DecidableEq, Repr

def POutcome.toOption : POutcome α → Option α
  | .ok a => some a
  | _ => none

/-- Model of `Complex<f64>` as used by the parser (a stored pair). -/
structure Cx where
  re : ℚ
  im : ℚ
  deriving DecidableEq, Repr

/-! ### Rust string-operation models (over `List Char`) -/

/-- Rust `str::to_lowercase` (ASCII fragment). -/
def rustLower (l : Line) : Line := l.map Char.toLower

/-- Rust `str::trim_end`. -/
def trimEndL (l : Line) : Line := (l.reverse.dropWhile Char.isWhitespace).reverse

/-- Rust `str::trim_start`. -/
def trimStartL (l : Line) : Line := l.dropWhile Char.isWhitespace

/-- Rust `str::trim`. -/
def trimL (l : Line) : Line := trimEndL (trimStartL l)

/-- Rust `str::trim_start_matches(c)` with a char pattern: strips every
leading occurrence. -/
def stripLeadChar (c : Char) (l : Line) : Line := l.dropWhile (fun x => x = c)

/-- Rust `str::trim_end_matches(c)` with a char pattern: strips every
trailing occurrence. -/
def stripTrailChar (c : Char) (l : Line) : Line :=
  (l.reverse.dropWhile (fun x => x = c)).reverse

/-- Fuel-driven worker for `stripTag`; `l.length` units of fuel always
suffice because each round removes at least one character. -/
def stripTagFuel (tag : Line) : ℕ → Line → Line
  | 0, l => l
  | n + 1, l =>
    if tag ≠ [] ∧ tag.isPrefixOf l then stripTagFuel tag n (l.drop tag.length) else l

/-- Rust `str::trim_start_matches(tag)` with a string pattern: strips the
tag repeatedly from the front. -/
def stripTag (tag l : Line) : Line := stripTagFuel tag l.length l

/-- Index of the last `'!'` in the line, Rust `str::rfind('!')`
(ASCII, so byte index = char index). -/
def lastBangIdx (l : Line) : Option ℕ :=
  match l.reverse.findIdx? (fun x => x = '!') with
  | some j => some (l.length - 1 - j)
  | none => none

/-- Split at the last `'!'`: `some (line[..idx], line[idx..])`, or `none`
when the line holds no `'!'`. -/
def lastBangSplit (l : Line) : Option (Line × Line) :=
  match lastBangIdx l with
  | some i => some (l.take i, l.drop i)
  | none => none

/-- Worker for `splitWs`, accumulating the current token reversed. -/
def splitWsAux : Line → Line → List Line
  | [], acc => if acc = [] then [] else [acc.reverse]
  | c :: rest, acc =>
    if c.isWhitespace then
      if acc = [] then splitWsAux rest [] else acc.reverse :: splitWsAux rest []
    else splitWsAux rest (c :: acc)

/-- Rust `str::split_whitespace`: whitespace-separated tokens, no empty
tokens produced. -/
def splitWs (l : Line) : List Line := splitWsAux l []

/-- Worker for `splitChar`. -/
def splitCharAux (c : Char) : Line → Line → List Line
  | [], acc => [acc.reverse]
  | x :: rest, acc =>
    if x = c then acc.reverse :: splitCharAux c rest [] else splitCharAux c rest (x :: acc)

/-- Rust `str::split(c)`: keeps empty tokens; the empty string yields one
empty token. -/
def splitChar (c : Char) (l : Line) : List Line := splitCharAux c l []

/-- Rust `str::contains(pat)`: `pat` occurs as a contiguous substring. -/
def hasSub (pat l : Line) : Bool :=
  (List.range (l.length + 1)).any (fun i => pat.isPrefixOf (l.drop i))

/-! ### Numeric token parsers -/

/-- Value of a digit string, most significant first. -/
def digitsVal (ds : Line) : ℕ := ds.foldl (fun a c => 10 * a + (c.toNat - 48)) 0

/-- Rust `usize::from_str`: optional `'+'`, then one or more digits
(the machine-width overflow cap is not modelled; no claim reaches it). -/
def parseNatRust (l : Line) : Option ℕ :=
  let l1 := match l with
    | c :: r => if c = '+' then r else c :: r
    | [] => []
  if l1 ≠ [] ∧ l1.all Char.isDigit then some (digitsVal l1) else none

/-- Exponent tail of a float literal: empty, or `e`/`E`, optional sign,
one or more digits consuming the rest of the token. -/
def parseExp : Line → Option ℤ
  | [] => some 0
  | c :: r =>
    if c = 'e' ∨ c = 'E' then
      let se : Bool × Line := match r with
        | d :: t => if d = '+' then (false, t) else if d = '-' then (true, t) else (false, d :: t)
        | [] => (false, [])
      let ds := se.2.takeWhile Char.isDigit
      if ds ≠ [] ∧ se.2.dropWhile Char.isDigit = [] then
        some (if se.1 then -(digitsVal ds : ℤ) else (digitsVal ds : ℤ))
      else none
    else none

/-- The exact rational value `±mant · 10^e10`, built with the reducible
smart constructors (`Rat.ofInt`, `mkRat`) rather than the irreducible
`Rat` arithmetic, so that concrete runs evaluate inside proofs. -/
def decToQ (neg : Bool) (mant : ℕ) (e10 : ℤ) : ℚ :=
  let sm : ℤ := if neg then -(mant : ℤ) else (mant : ℤ)
  match e10 with
  | .ofNat k => Rat.ofInt (sm * ((10 ^ k : ℕ) : ℤ))
  | .negSucc k => mkRat sm (10 ^ (k + 1))

/-- Rust `f64::from_str` on the grammar fragment the claims exercise:
`Sign? (Digit+ ('.' Digit*)? | '.' Digit+) Exp?`, whole-token match; the
decimal `i.f e^x` denotes the rational `±(digits of i followed by digits
of f) · 10^(x - |f|)`. -/
def parseF64 (l : Line) : Option ℚ :=
  let sl : Bool × Line := match l with
    | c :: r => if c = '+' then (false, r) else if c = '-' then (true, r) else (false, c :: r)
    | [] => (false, [])
  let l1 := sl.2
  let ip := l1.takeWhile Char.isDigit
  let r1 := l1.dropWhile Char.isDigit
  if ip = [] then
    match r1 with
    | c :: r2 =>
      if c = '.' then
        let fr := r2.takeWhile Char.isDigit
        let r3 := r2.dropWhile Char.isDigit
        if fr = [] then none
        else (parseExp r3).map (fun e => decToQ sl.1 (digitsVal fr) (e - fr.length))
      else none
    | [] => none
  else
    match r1 with
    | c :: r2 =>
      if c = '.' then
        let fr := r2.takeWhile Char.isDigit
        let r3 := r2.dropWhile Char.isDigit
        (parseExp r3).map (fun e => decToQ sl.1 (digitsVal (ip ++ fr)) (e - fr.length))
      else (parseExp (c :: r2)).map (fun e => decToQ sl.1 (digitsVal ip) e)
    | [] => (parseExp []).map (fun e => decToQ sl.1 (digitsVal ip) e)

/-- Rust `.map(|v| v.parse::<f64>().unwrap()).collect()` over a token list:
`none` models the panic on the first unparseable token. -/
def parseAllF64 : List Line → Option (List ℚ)
  | [] => some []
  | t :: ts =>
    match parseF64 t, parseAllF64 ts with
    | some v, some vs => some (v :: vs)
    | _, _ => none

/-! ### Enumerations and options (src/touchstone.rs, src/frequency.rs) -/

/-- Rust `enum TouchstoneVersion { One, Two }`. -/
inductive TouchstoneVersion where
  | One
  | Two
  deriving DecidableEq, Repr

/-- Rust `enum FreqUnit { Hz, KHz, MHz, GHz, THz }`. -/
inductive FreqUnit where
  | Hz
  | KHz
  | MHz
  | GHz
  | THz
  deriving DecidableEq, Repr

/-- Rust `FromStr for FreqUnit` (src/frequency.rs): exact lowercase tokens only. -/
def FreqUnit.fromStr (s : Line) : Option FreqUnit :=
  if s = s2l "hz" then some .Hz
  else if s = s2l "khz" then some .KHz
  else if s = s2l "mhz" then some .MHz
  else if s = s2l "ghz" then some .GHz
  else if s = s2l "thz" then some .THz
  else none

/-- Rust `enum ParamType { S, Y, Z, G, H }`. -/
inductive ParamType where
  | S
  | Y
  | Z
  | G
  | H
  deriving DecidableEq, Repr

/-- Rust `FromStr for ParamType`: either case accepted. -/
def ParamType.fromStr (s : Line) : Option ParamType :=
  if s = s2l "s" ∨ s = s2l "S" then some .S
  else if s = s2l "y" ∨ s = s2l "Y" then some .Y
  else if s = s2l "z" ∨ s = s2l "Z" then some .Z
  else if s = s2l "g" ∨ s = s2l "G" then some .G
  else if s = s2l "h" ∨ s = s2l "H" then some .H
  else none

/-- Rust `enum ParamFormat { DBAngle, MagAngle, RealImag }`. -/
inductive ParamFormat where
  | DBAngle
  | MagAngle
  | RealImag
  deriving DecidableEq, Repr

/-- Rust `FromStr for ParamFormat`: either case accepted. -/
def ParamFormat.fromStr (s : Line) : Option ParamFormat :=
  if s = s2l "db" ∨ s = s2l "DB" then some .DBAngle
  else if s = s2l "ma" ∨ s = s2l "MA" then some .MagAngle
  else if s = s2l "ri" ∨ s = s2l "RI" then some .RealImag
  else none

/-- Rust `struct TouchstoneOptions`. -/
structure TouchstoneOptions where
  unit : FreqUnit
  param_type : ParamType
  param_format : ParamFormat
  resistance : ℚ
  deriving DecidableEq, Repr

/-- Rust `Default for TouchstoneOptions`: GHz, S, MagAngle, 50 Ω. -/
def TouchstoneOptions.default : TouchstoneOptions :=
  ⟨.GHz, .S, .MagAngle, 50⟩

/-- The `for (index, entry) in split_line.iter().enumerate()` loop of
`parse_options_line`; `full` is the whole token vector (needed for the
`split_line[index + 1]` lookup after an `"r"` token, which panics when
out of range). -/
def optionsLoopAux (full : List Line) : List Line → ℕ → TouchstoneOptions →
    POutcome TouchstoneOptions
  | [], _, opts => .ok opts
  | entry :: rest, i, opts =>
    if hasSub (s2l "hz") entry then
      match FreqUnit.fromStr entry with
      | some u => optionsLoopAux full rest (i + 1) { opts with unit := u }
      | none => .err
    else if entry.length = 2 then
      if entry = s2l "db" ∨ entry = s2l "ma" ∨ entry = s2l "ri" then
        match ParamFormat.fromStr entry with
        | some fmt => optionsLoopAux full rest (i + 1) { opts with param_format := fmt }
        | none => .err
      else optionsLoopAux full rest (i + 1) opts
    else if hasSub entry (s2l "syzhg") ∧ entry.length = 1 then
      if entry = s2l "s" ∨ entry = s2l "y" ∨ entry = s2l "z" ∨ entry = s2l "h" ∨
          entry = s2l "g" then
        match ParamType.fromStr entry with
        | some pt => optionsLoopAux full rest (i + 1) { opts with param_type := pt }
        | none => .err
      else optionsLoopAux full rest (i + 1) opts
    else if entry = s2l "r" then
      match full.get? (i + 1) with
      | none => .crash
      | some nxt =>
        match parseF64 nxt with
        | none => .err
        | some v => optionsLoopAux full rest (i + 1) { opts with resistance := v }
    else optionsLoopAux full rest (i + 1) opts

/-- Rust `fn parse_options_line`: whitespace-split the line, drop the leading
marker token (`Vec::remove(0)` panics on an empty vector), then run the
entry loop. -/
def parseOptionsLine (line : Line) (opts : TouchstoneOptions) :
    POutcome TouchstoneOptions :=
  match splitWs line with
  | [] => .crash
  | _ :: toks => optionsLoopAux toks toks 0 opts

/-! ### Data-row accumulation (src/touchstone.rs lines 211-228) -/

/-- Rust `slice::chunks(2)`: pairs, with a dangling singleton when the
length is odd. -/
def chunks2 : List ℚ → List (List ℚ)
  | [] => []
  | [a] => [[a]]
  | a :: b :: rest => [a, b] :: chunks2 rest

/-- Rust `Complex::new(pair[0], pair[1])`: indexing a chunk, panicking when
the chunk has fewer than two elements. -/
def pairOf (c : List ℚ) : POutcome Cx :=
  match c.get? 0, c.get? 1 with
  | some a, some b => .ok ⟨a, b⟩
  | _, _ => .crash

/-- Rust `pairs_iter.map(...).collect()` with panic propagation. -/
def collectPairs : List (List ℚ) → POutcome (List Cx)
  | [] => .ok []
  | c :: cs =>
    match pairOf c with
    | .ok z =>
      match collectPairs cs with
      | .ok zs => .ok (z :: zs)
      | .err => .err
      | .crash => .crash
    | .err => .err
    | .crash => .crash

/-- Spec-side total pairing of an even-length token list, two at a time
(used only to state what the accumulation produces). -/
def pairUp : List ℚ → List Cx
  | a :: b :: rest => ⟨a, b⟩ :: pairUp rest
  | _ => []

/-- The data-row branch of the main loop, after the tokens have been
parsed: classify by token count (`2·rank + 1` or `2·rank² + 1`), push and
remove the frequency on a match, then pair the remaining tokens. -/
def processDataRow (rank : ℕ) (chunked : List ℚ) (freqs : List ℚ) (buf : List Cx) :
    POutcome (List ℚ × List Cx) :=
  if chunked.length = 2 * rank + 1 ∨ chunked.length = 2 * (rank * rank) + 1 then
    match chunked with
    | [] => .crash
    | f :: rest =>
      match collectPairs (chunks2 rest) with
      | .ok ps => .ok (freqs ++ [f], buf ++ ps)
      | .err => .err
      | .crash => .crash
  else
    match collectPairs (chunks2 chunked) with
    | .ok ps => .ok (freqs, buf ++ ps)
    | .err => .err
    | .crash => .crash

/-- The whole `else` branch for a data row: whitespace-split, parse every
token (`unwrap` panics on failure), then accumulate. -/
def dataRowStep (rank : ℕ) (line : Line) (freqs : List ℚ) (buf : List Cx) :
    POutcome (List ℚ × List Cx) :=
  match parseAllF64 (splitWs line) with
  | none => .crash
  | some chunked => processDataRow rank chunked freqs buf

/-! ### Parse state and the line-oriented state machine -/

/-- Model of `ndarray::Array3<Complex<f64>>`: a shape plus the row-major
flat data. -/
structure CxArray3 where
  d1 : ℕ
  d2 : ℕ
  d3 : ℕ
  data : List Cx
  deriving DecidableEq, Repr

/-- Model of `ndarray::Array::from_shape_vec` for a 3-tuple shape: succeeds exactly
when the flat length matches the shape product. -/
def fromShapeVec3 (d1 d2 d3 : ℕ) (v : List Cx) : Option CxArray3 :=
  if v.length = d1 * d2 * d3 then some ⟨d1, d2, d3, v⟩ else none

/-- Model of `ndarray::Array2<Complex<f64>>`. -/
structure CxArray2 where
  d1 : ℕ
  d2 : ℕ
  data : List Cx
  deriving DecidableEq, Repr

/-- Model of `ndarray::Array::from_elem((d1, d2), c)`. -/
def fromElem2 (d1 d2 : ℕ) (c : Cx) : CxArray2 :=
  ⟨d1, d2, List.replicate (d1 * d2) c⟩

/-- Rust `pub struct Touchstone` (the `filename` field, never populated by the
parser, is omitted; `noise` is kept as the always-`none` field it is). -/
structure Touchstone where
  version : TouchstoneVersion
  comments : List Line
  num_ports : Option ℕ
  num_freq_points : Option ℕ
  num_noise_freq_points : Option ℕ
  reference : Option (List ℚ)
  options : TouchstoneOptions
  freqs : List ℚ
  s_params : CxArray3
  rank : ℕ
  noise : Option CxArray3
  deriving DecidableEq, Repr

/-- Rust `Touchstone::default()`: version One, empty collections, default
options, rank 0, empty parameter array. -/
def Touchstone.default : Touchstone :=
  ⟨.One, [], none, none, none, none, TouchstoneOptions.default, [], ⟨0, 0, 0, []⟩, 0, none⟩

/-- The mutable state threaded through the main parse loop: the partial
`Touchstone`, the `options_read` flag, and the `temp_s_params` buffer. -/
structure PState where
  ts : Touchstone
  optionsRead : Bool
  buf : List Cx
  deriving DecidableEq, Repr

/-- Result of the comment-handling block (lines 162-174): either the line
is consumed (with the updated comment list) or processing continues on
the possibly comment-stripped line. -/
inductive CommentAct where
  | consumed (comments : List Line)
  | proc (l : Line)
  deriving DecidableEq, Repr

/-- The `if let Some(idx) = line.rfind('!')` block: before the options
line is seen, the whole trailing comment is stored and the line dropped;
afterwards a pure comment line is dropped and a mixed line is truncated
at the last `'!'`. -/
def commentStep (optionsRead : Bool) (comments : List Line) (line : Line) : CommentAct :=
  match lastBangSplit line with
  | none => .proc line
  | some (before, fromBang) =>
    if optionsRead = false then .consumed (comments ++ [stripLeadChar '!' fromBang])
    else if line.head? = some '!' then .consumed comments
    else .proc before

/-- What one iteration of the main loop does: continue (optionally having
consumed the lookahead line used by `[reference]`), break on `[end]`,
return the typed error, or panic. -/
inductive StepRes where
  | cont (st : PState) (consumedLookahead : Bool)
  | halt (st : PState)
  | fail
  | die
  deriving DecidableEq, Repr

/-- One iteration of the main parse loop of `Touchstone::new` over the
current physical line; `lookahead` is the next physical line, read only
by a bare `[reference]` directive (at end of input the cleared buffer
stays empty, which the `getD []` models). -/
def lineStep (st : PState) (raw : Line) (lookahead : Option Line) : StepRes :=
  let line0 := rustLower raw
  if trimEndL line0 = [] then .cont st false
  else
    match commentStep st.optionsRead st.ts.comments line0 with
    | .consumed cs => .cont { st with ts := { st.ts with comments := cs } } false
    | .proc line =>
      if (s2l "[version]").isPrefixOf line then
        if trimL (stripTag (s2l "[version]") line) = s2l "2.0" then
          .cont { st with ts := { st.ts with version := .Two } } false
        else .cont st false
      else if (s2l "[reference]").isPrefixOf line then
        if trimL (stripTag (s2l "[reference]") line) = [] then
          match parseAllF64 (splitChar ' ' (trimEndL (lookahead.getD []))) with
          | none => .die
          | some vs => .cont { st with ts := { st.ts with reference := some vs } } true
        else
          match parseAllF64 (splitChar ' ' (trimEndL line)) with
          | none => .die
          | some vs => .cont { st with ts := { st.ts with reference := some vs } } false
      else if (s2l "[number of ports]").isPrefixOf line then
        .cont { st with ts :=
          { st.ts with num_ports := parseNatRust (stripTag (s2l "[number of ports]") line) } } false
      else if (s2l "[number of frequencies]").isPrefixOf line then
        .cont { st with ts :=
          { st.ts with num_freq_points :=
              parseNatRust (stripTag (s2l "[number of frequencies]") line) } } false
      else if (s2l "[number of noise frequencies]").isPrefixOf line then
        .cont { st with ts :=
          { st.ts with num_noise_freq_points :=
              parseNatRust (stripTag (s2l "[number of noise frequencies]") line) } } false
      else if (s2l "[network data]").isPrefixOf line then .cont st false
      else if (s2l "[end]").isPrefixOf line then .halt st
      else if line.head? = some '#' then
        match parseOptionsLine line st.ts.options with
        | .ok o => .cont { st with ts := { st.ts with options := o }, optionsRead := true } false
        | .err => .fail
        | .crash => .die
      else
        match dataRowStep st.ts.rank line st.ts.freqs st.buf with
        | .ok (fs, b) => .cont { st with ts := { st.ts with freqs := fs }, buf := b } false
        | .err => .fail
        | .crash => .die

/-- The main parse loop: consume the remaining lines one at a time,
with `[reference]` able to consume a second line as lookahead. -/
def parseLoop : List Line → PState → POutcome PState
  | [], st => .ok st
  | raw :: rest, st =>
    match lineStep st raw rest.head? with
    | .halt st1 => .ok st1
    | .fail => .err
    | .die => .crash
    | .cont st1 false => parseLoop rest st1
    | .cont st1 true =>
      match rest with
      | [] => .ok st1
      | _ :: rest1 => parseLoop rest1 st1

/-- The extension inspection at the top of `Touchstone::new` (lines
121-139): a missing extension skips the check entirely (rank stays at the
default 0); `s…p` (lowercase literal chars) parses the stripped interior
as the rank; `ts` hits `unimplemented!()` (a panic); everything else
returns `Err(ParseError)`. -/
def rankFromExtension : Option Line → POutcome ℕ
  | none => .ok 0
  | some ext =>
    if ext.head? = some 's' ∧ ext.getLast? = some 'p' then
      match parseNatRust (stripTrailChar 'p' (stripLeadChar 's' ext)) with
      | some r => .ok r
      | none => .err
    else if ext = s2l "ts" then .crash
    else .err

/-- Rust `Touchstone::new`: fix rank from the extension, run the line loop
from the default state, then reshape the flat buffer into the
`(freqs.len(), rank, rank)` tensor, `Err(ParseError)` on mismatch. -/
def touchstoneNew (ext : Option Line) (lines : List Line) : POutcome Touchstone :=
  match rankFromExtension ext with
  | .err => .err
  | .crash => .crash
  | .ok r =>
    match parseLoop lines ⟨{ Touchstone.default with rank := r }, false, []⟩ with
    | .err => .err
    | .crash => .crash
    | .ok st =>
      match fromShapeVec3 st.ts.freqs.length st.ts.rank st.ts.rank st.buf with
      | some arr => .ok { st.ts with s_params := arr }
      | none => .err

/-! ### Frequency and Network (src/frequency.rs, src/network.rs) -/

/-- Rust `pub struct Frequency`. -/
structure Frequency where
  f : List ℚ
  start : ℚ
  stop : ℚ
  npoints : ℕ
  deriving DecidableEq, Repr

/-- Rust `impl From<Vec<f64>> for Frequency`: `freqs[0]` and
`freqs.last().unwrap()` both panic on an empty vector. -/
def frequencyFromVec : List ℚ → POutcome Frequency
  | [] => .crash
  | x :: xs => .ok ⟨x :: xs, x, (x :: xs).getLast (List.cons_ne_nil x xs), xs.length + 1⟩

/-- Rust `pub struct Network`. -/
structure Network where
  f : Frequency
  s : CxArray3
  z0 : CxArray2
  deriving DecidableEq, Repr

/-- Rust `Network::from_snp`: parse the file, adopt its frequency list, and
broadcast the hardcoded `Complex::new(50., 0.)` across a `(1, n)` row. -/
def networkFromSnp (ext : Option Line) (lines : List Line) : POutcome Network :=
  match touchstoneNew ext lines with
  | .err => .err
  | .crash => .crash
  | .ok t =>
    match frequencyFromVec t.freqs with
    | .err => .err
    | .crash => .crash
    | .ok fr => .ok ⟨fr, t.s_params, fromElem2 1 t.freqs.length ⟨50, 0⟩⟩

/-- The fall-through condition of the main loop's if-chain: the processed
line matches none of the directive tests, so it is handled as a data row. -/
abbrev noDirective (l : Line) : Prop :=
  ¬((s2l "[version]").isPrefixOf l = true) ∧
  ¬((s2l "[reference]").isPrefixOf l = true) ∧
  ¬((s2l "[number of ports]").isPrefixOf l = true) ∧
  ¬((s2l "[number of frequencies]").isPrefixOf l = true) ∧
  ¬((s2l "[number of noise frequencies]").isPrefixOf l = true) ∧
  ¬((s2l "[network data]").isPrefixOf l = true) ∧
  ¬((s2l "[end]").isPrefixOf l = true) ∧
  l.head? ≠ some '#'

/-- Sample extension (`s1p`) used by concrete witness runs. -/
def sampleExt : Option Line := some (s2l "s1p")

/-- Sample one-data-row file body used by concrete witness runs. -/
def sampleLines : List Line := [s2l "1.0 0.5 0.5"]

/-- The `Touchstone` value produced by parsing `sampleLines` with
`sampleExt`. -/
def sampleTouch : Touchstone :=
  ⟨.One, [], none, none, none, none, TouchstoneOptions.default, [1],
    ⟨1, 1, 1, [⟨mkRat 1 2, mkRat 1 2⟩]⟩, 1, none⟩

/-- The loop state reached after consuming `sampleLines` (before the
final reshape). -/
def sampleState : PState :=
  ⟨⟨.One, [], none, none, none, none, TouchstoneOptions.default, [1],
    ⟨0, 0, 0, []⟩, 1, none⟩, false, [⟨mkRat 1 2, mkRat 1 2⟩]⟩

/-- The `Network` value produced from `sampleLines` with `sampleExt`. -/
def sampleNet : Network :=
  ⟨⟨[1], 1, 1, 1⟩, ⟨1, 1, 1, [⟨mkRat 1 2, mkRat 1 2⟩]⟩, ⟨1, 1, [⟨50, 0⟩]⟩⟩

/-! ### Helper lemmas -/

theorem take_head? (l : Line) (i : ℕ) :
    (l.take i).head? = none ∨ (l.take i).head? = l.head? := by
  cases i with
  | zero => exact Or.inl rfl
  | succ n =>
    cases l with
    | nil => exact Or.inl rfl
    | cons a t => exact Or.inr rfl

theorem lastBangSplit_parts (l p q : Line) (h : lastBangSplit l = some (p, q)) :
    ∃ i, p = l.take i ∧ q = l.drop i := by
  unfold lastBangSplit at h
  split at h
  · rename_i i heq
    simp only [Option.some.injEq, Prod.mk.injEq] at h
    exact ⟨i, h.1.symm, h.2.symm⟩
  · cases h

theorem commentStep_proc_head (oRead : Bool) (cs : List Line) (l pl : Line)
    (h : commentStep oRead cs l = .proc pl) :
    pl.head? = none ∨ pl.head? = l.head? := by
  unfold commentStep at h
  cases heq : lastBangSplit l with
  | none =>
    simp only [heq] at h
    cases h
    exact Or.inr rfl
  | some pr =>
    obtain ⟨before, fromBang⟩ := pr
    simp only [heq] at h
    split at h
    · cases h
    · split at h
      · cases h
      · injection h with h2
        obtain ⟨i, hp, -⟩ := lastBangSplit_parts l before fromBang heq
        rw [← h2, hp]
        exact take_head? l i

theorem lineStep_cont_inv (st : PState) (raw : Line) (la : Option Line) (st1 : PState)
    (b : Bool) (h : lineStep st raw la = .cont st1 b) :
    st1.ts.rank = st.ts.rank ∧
      ((rustLower raw).head? = some '#' ∨ st1.ts.options = st.ts.options) := by
  simp only [lineStep] at h
  repeat' split at h
  all_goals try (cases h; exact ⟨rfl, Or.inr rfl⟩)
  all_goals cases h
  refine ⟨rfl, Or.inl ?_⟩
  rename_i pl heqc hv hr hp hf hn hd he hhash x2 o hopt
  rcases commentStep_proc_head _ _ _ _ heqc with hh | hh
  · rw [hhash] at hh
    cases hh
  · rw [← hh]
    exact hhash

theorem lineStep_halt_inv (st : PState) (raw : Line) (la : Option Line) (st1 : PState)
    (h : lineStep st raw la = .halt st1) : st1 = st := by
  simp only [lineStep] at h
  repeat' split at h
  all_goals first
    | (cases h; rfl)
    | cases h

theorem parseLoop_inv (ls : List Line) (st : PState) :
    ∀ st1, parseLoop ls st = .ok st1 →
      st1.ts.rank = st.ts.rank ∧
        ((∃ l ∈ ls, (rustLower l).head? = some '#') ∨ st1.ts.options = st.ts.options) := by
  induction ls, st using parseLoop.induct with
  | case1 st =>
    intro st1 h
    cases h
    exact ⟨rfl, Or.inr rfl⟩
  | case2 raw rest st sth hstep =>
    intro st1 h
    simp only [parseLoop, hstep] at h
    cases h
    rw [lineStep_halt_inv _ _ _ _ hstep]
    exact ⟨rfl, Or.inr rfl⟩
  | case3 raw rest st hstep =>
    intro st1 h
    simp only [parseLoop, hstep] at h
    cases h
  | case4 raw rest st hstep =>
    intro st1 h
    simp only [parseLoop, hstep] at h
    cases h
  | case5 raw rest st stc hstep ih =>
    intro st1 h
    simp only [parseLoop, hstep] at h
    obtain ⟨hr1, ho1⟩ := ih st1 h
    obtain ⟨hr2, ho2⟩ := lineStep_cont_inv _ _ _ _ _ hstep
    refine ⟨hr1.trans hr2, ?_⟩
    rcases ho1 with ⟨l, hl, hh⟩ | ho1
    · exact Or.inl ⟨l, List.mem_cons_of_mem _ hl, hh⟩
    · rcases ho2 with hh | ho2
      · exact Or.inl ⟨raw, List.mem_cons_self _ _, hh⟩
      · exact Or.inr (ho1.trans ho2)
  | case6 raw st stc hstep =>
    intro st1 h
    simp only [parseLoop, hstep] at h
    cases h
    obtain ⟨hr2, ho2⟩ := lineStep_cont_inv _ _ _ _ _ hstep
    refine ⟨hr2, ?_⟩
    rcases ho2 with hh | ho2
    · exact Or.inl ⟨raw, List.mem_cons_self _ _, hh⟩
    · exact Or.inr ho2
  | case7 raw st stc t ts hstep ih =>
    intro st1 h
    simp only [parseLoop, hstep] at h
    obtain ⟨hr1, ho1⟩ := ih st1 h
    obtain ⟨hr2, ho2⟩ := lineStep_cont_inv _ _ _ _ _ hstep
    refine ⟨hr1.trans hr2, ?_⟩
    rcases ho1 with ⟨l, hl, hh⟩ | ho1
    · exact Or.inl ⟨l, by simp [hl], hh⟩
    · rcases ho2 with hh | ho2
      · exact Or.inl ⟨raw, List.mem_cons_self _ _, hh⟩
      · exact Or.inr (ho1.trans ho2)

theorem touchstoneNew_ok (ext : Option Line) (lines : List Line) (t : Touchstone)
    (h : touchstoneNew ext lines = .ok t) :
    ∃ r st, rankFromExtension ext = .ok r ∧
      parseLoop lines ⟨{ Touchstone.default with rank := r }, false, []⟩ = .ok st ∧
      st.buf.length = st.ts.freqs.length * st.ts.rank * st.ts.rank ∧
      t = { st.ts with s_params := ⟨st.ts.freqs.length, st.ts.rank, st.ts.rank, st.buf⟩ } := by
  unfold touchstoneNew at h
  split at h
  · cases h
  · cases h
  · rename_i r hr
    split at h
    · cases h
    · cases h
    · rename_i st hst
      split at h
      · rename_i arr harr
        cases h
        unfold fromShapeVec3 at harr
        split at harr
        · rename_i hlen
          cases harr
          exact ⟨r, st, hr, hst, hlen, rfl⟩
        · cases harr
      · cases h

theorem parseAllF64_none (ts : List Line) (tok : Line) (hmem : tok ∈ ts)
    (hp : parseF64 tok = none) : parseAllF64 ts = none := by
  induction ts with
  | nil => cases hmem
  | cons a l ih =>
    rcases List.mem_cons.mp hmem with rfl | hmem2
    · unfold parseAllF64
      rw [hp]
    · unfold parseAllF64
      rw [ih hmem2]
      cases parseF64 a <;> rfl

theorem collectPairs_chunks2 (l : List ℚ) :
    (l.length % 2 = 0 → collectPairs (chunks2 l) = .ok (pairUp l)) ∧
    (l.length % 2 = 1 → collectPairs (chunks2 l) = .crash) := by
  induction l using chunks2.induct with
  | case1 =>
    refine ⟨fun _ => rfl, fun hodd => ?_⟩
    simp at hodd
  | case2 a =>
    refine ⟨fun heven => ?_, fun _ => rfl⟩
    simp at heven
  | case3 a bq rest ih =>
    constructor
    · intro heven
      have hr : rest.length % 2 = 0 := by
        simp only [List.length_cons] at heven
        omega
      show collectPairs ([a, bq] :: chunks2 rest) = .ok (pairUp (a :: bq :: rest))
      unfold collectPairs pairOf
      rw [ih.1 hr]
      rfl
    · intro hodd
      have hr : rest.length % 2 = 1 := by
        simp only [List.length_cons] at hodd
        omega
      show collectPairs ([a, bq] :: chunks2 rest) = .crash
      unfold collectPairs pairOf
      rw [ih.2 hr]
      rfl

theorem frequencyFromVec_fields (v : List ℚ) (fr : Frequency)
    (h : frequencyFromVec v = .ok fr) :
    fr.f = v ∧ v.head? = some fr.start ∧ v.getLast? = some fr.stop ∧
      fr.npoints = v.length := by
  cases v with
  | nil => cases h
  | cons x xs =>
    cases h
    refine ⟨rfl, rfl, ?_, by simp⟩
    simp [List.getLast?_eq_getLast]

theorem isDigit_ne (c d : Char) (h : c.isDigit = true) (hd : d.isDigit = false) :
    c ≠ d := by
  intro heq
  rw [heq, hd] at h
  cases h

theorem trimEndL_cons_not_ws (x : Char) (xs : Line) (hx : x.isWhitespace = false) :
    trimEndL (x :: xs) = x :: trimEndL xs := by
  unfold trimEndL
  rw [List.reverse_cons, List.dropWhile_append]
  by_cases h : xs.reverse.dropWhile Char.isWhitespace = []
  · simp [h, hx]
  · simp [h, hx, List.isEmpty_iff]

theorem splitCharAux_first (c : Char) (l : Line) : ∀ acc : Line,
    ∃ ts, splitCharAux c l acc =
      (acc.reverse ++ l.takeWhile (fun y => !(y = c : Bool))) :: ts := by
  induction l with
  | nil =>
    intro acc
    exact ⟨[], by simp [splitCharAux]⟩
  | cons x rest ih =>
    intro acc
    by_cases hx : x = c
    · refine ⟨splitCharAux c rest [], ?_⟩
      rw [splitCharAux, if_pos hx]
      simp [hx, List.takeWhile_cons]
    · obtain ⟨ts, hts⟩ := ih (x :: acc)
      refine ⟨ts, ?_⟩
      rw [splitCharAux, if_neg hx, hts]
      simp [hx]

theorem parseF64_head_bracket (xs : Line) : parseF64 ('[' :: xs) = none := by
  unfold parseF64
  simp

theorem parseAllF64_head_bracket (xs : Line) (ts : List Line) :
    parseAllF64 (('[' :: xs) :: ts) = none := by
  unfold parseAllF64
  rw [parseF64_head_bracket]

/-! ### Claim theorems -/

/-- C1 counterexample: the claim states that a data row matching neither
token count (2·r+1 nor 2·r²+1) contributes all of its tokens as a
continuation of the current frequency record.  At rank 2 the three-token
row [1, 2, 3] matches neither count, and instead of contributing its
tokens the code panics: chunks-of-two leaves a dangling one-element chunk
whose second component is indexed out of bounds. -/
theorem C1_cx : processDataRow 2 [1, 2, 3] [] [] = POutcome.crash := by decide

/-- C1 amended: a whitespace-split data row opens a new frequency record
iff its token count equals 2·r+1 or 2·r²+1; in that case its first token
is pushed onto the frequency list and removed, and the remaining (even
count of) tokens are paired consecutively into complex(a,b) and appended
to the flat buffer in order; a row matching neither count with an even
token count contributes all of its tokens as continuation data with no
frequency pushed; a row matching neither count with an odd token count
panics instead of contributing its tokens. -/
theorem C1_thm (r : ℕ) (tok freqs : List ℚ) (buf : List Cx) :
    (tok.length = 2 * r + 1 ∨ tok.length = 2 * (r * r) + 1 →
      processDataRow r tok freqs buf =
        .ok (freqs ++ tok.take 1, buf ++ pairUp (tok.drop 1))) ∧
    (¬(tok.length = 2 * r + 1 ∨ tok.length = 2 * (r * r) + 1) →
      (tok.length % 2 = 0 →
        processDataRow r tok freqs buf = .ok (freqs, buf ++ pairUp tok)) ∧
      (tok.length % 2 = 1 → processDataRow r tok freqs buf = .crash)) := by
  constructor
  · intro hm
    unfold processDataRow
    rw [if_pos hm]
    cases tok with
    | nil =>
      simp only [List.length_nil] at hm
      rcases hm with hm | hm <;> omega
    | cons f rest =>
      have hrest : rest.length % 2 = 0 := by
        simp only [List.length_cons] at hm
        omega
      simp [(collectPairs_chunks2 rest).1 hrest]
  · intro hm
    constructor
    · intro heven
      unfold processDataRow
      rw [if_neg hm]
      simp [(collectPairs_chunks2 tok).1 heven]
    · intro hodd
      unfold processDataRow
      rw [if_neg hm]
      simp [(collectPairs_chunks2 tok).2 hodd]

/-- Witness for C1: at rank 1 the row [5, 2, 3] matches 2·1+1, pushes the
frequency 5 and stores the pair (2, 3); at rank 5 the even four-token row
[1, 2, 3, 4] is a continuation contributing both pairs; at rank 5 the odd
three-token row [1, 2, 3] panics. -/
theorem C1_wit :
    processDataRow 1 [5, 2, 3] [] [] = POutcome.ok ([5], [⟨2, 3⟩]) ∧
    processDataRow 5 [1, 2, 3, 4] [] [] = POutcome.ok ([], [⟨1, 2⟩, ⟨3, 4⟩]) ∧
    processDataRow 5 [1, 2, 3] [] [] = POutcome.crash := by
  refine ⟨?_, ?_, ?_⟩
  · have h := (C1_thm 1 [5, 2, 3] [] []).1 (by norm_num)
    simpa [pairUp] using h
  · have h := ((C1_thm 5 [1, 2, 3, 4] [] []).2 (by norm_num)).1 (by norm_num)
    simpa [pairUp] using h
  · exact ((C1_thm 5 [1, 2, 3] [] []).2 (by norm_num)).2 (by norm_num)

/-- C8 counterexample: the claim states that an "r" token whose next-token
lookup is out of range fails with the typed MalformedOptionsLine error; on
the option line "# r" the code instead panics (vector index out of
bounds), which is not the typed error. -/
theorem C8_cx :
    parseOptionsLine (s2l "# r") TouchstoneOptions.default = POutcome.crash ∧
      parseOptionsLine (s2l "# r") TouchstoneOptions.default ≠ POutcome.err := by decide

/-- C8 amended: in option-line decoding, a literal token "r" consumes the
next token as the reference resistance parsed as a float; when no next
token exists the index lookup panics (it does not return the typed
error), and when the next token exists but is not numeric, decoding fails
with the typed parse error. -/
theorem C8_thm (full rest : List Line) (i : ℕ) (opts : TouchstoneOptions) :
    (full.get? (i + 1) = none →
      optionsLoopAux full (s2l "r" :: rest) i opts = .crash) ∧
    (∀ nxt, full.get? (i + 1) = some nxt → parseF64 nxt = none →
      optionsLoopAux full (s2l "r" :: rest) i opts = .err) ∧
    (∀ nxt v, full.get? (i + 1) = some nxt → parseF64 nxt = some v →
      optionsLoopAux full (s2l "r" :: rest) i opts =
        optionsLoopAux full rest (i + 1) { opts with resistance := v }) := by
  refine ⟨fun hnone => ?_, fun nxt hnxt hbad => ?_, fun nxt v hnxt hval => ?_⟩
  · unfold optionsLoopAux
    rw [if_neg (by decide), if_neg (by decide), if_neg (by decide), if_pos rfl, hnone]
  · unfold optionsLoopAux
    rw [if_neg (by decide), if_neg (by decide), if_neg (by decide), if_pos rfl, hnxt]
    simp only [hbad]
  · conv_lhs => unfold optionsLoopAux
    rw [if_neg (by decide), if_neg (by decide), if_neg (by decide), if_pos rfl, hnxt]
    simp only [hval]

/-- Witness for C8: with only "r" the loop panics; with "r abc" it returns
the typed error; with "r 50" the resistance is consumed and the loop
continues past the value token. -/
theorem C8_wit :
    optionsLoopAux [s2l "r"] [s2l "r"] 0 TouchstoneOptions.default = POutcome.crash ∧
    optionsLoopAux [s2l "r", s2l "abc"] [s2l "r", s2l "abc"] 0 TouchstoneOptions.default =
      POutcome.err ∧
    optionsLoopAux [s2l "r", s2l "50"] [s2l "r", s2l "50"] 0 TouchstoneOptions.default =
      optionsLoopAux [s2l "r", s2l "50"] [s2l "50"] 1
        { TouchstoneOptions.default with resistance := 50 } := by
  refine ⟨?_, ?_, ?_⟩
  · exact (C8_thm [s2l "r"] [] 0 TouchstoneOptions.default).1 (by decide)
  · exact (C8_thm [s2l "r", s2l "abc"] [s2l "abc"] 0 TouchstoneOptions.default).2.1
      (s2l "abc") (by decide) (by decide)
  · have h := (C8_thm [s2l "r", s2l "50"] [s2l "50"] 0 TouchstoneOptions.default).2.2
      (s2l "50") 50 (by decide) (by decide)
    exact h

/-- C9 counterexample: the claim states that constructing a frequency
series from an empty sample list fails with the typed EmptySeries error;
the code (`From<Vec<f64>> for Frequency`) instead indexes `freqs[0]`
unconditionally and panics, and its return type admits no error at all. -/
theorem C9_cx :
    frequencyFromVec [] = POutcome.crash ∧
      frequencyFromVec [] ≠ POutcome.err := by decide

/-- C9 amended: constructing a frequency series from an externally
supplied list panics (out-of-bounds index) when the list has zero
elements, rather than failing with a typed error; for every non-empty
list it succeeds with start equal to the first element, stop equal to the
last element, and count equal to the list length. -/
theorem C9_thm (v : List ℚ) :
    (v = [] → frequencyFromVec v = .crash) ∧
    (∀ fr, frequencyFromVec v = .ok fr →
      fr.f = v ∧ v.head? = some fr.start ∧ v.getLast? = some fr.stop ∧
        fr.npoints = v.length) := by
  refine ⟨fun hv => ?_, fun fr h => frequencyFromVec_fields v fr h⟩
  subst hv
  rfl

/-- Witness for C9: the empty list panics; [1, 2, 3] yields start 1,
stop 3, count 3. -/
theorem C9_wit :
    frequencyFromVec ([] : List ℚ) = POutcome.crash ∧
    (⟨[1, 2, 3], 1, 3, 3⟩ : Frequency).f = [1, 2, 3] ∧
      ([1, 2, 3] : List ℚ).head? = some (⟨[1, 2, 3], 1, 3, 3⟩ : Frequency).start ∧
      ([1, 2, 3] : List ℚ).getLast? = some (⟨[1, 2, 3], 1, 3, 3⟩ : Frequency).stop ∧
      (⟨[1, 2, 3], 1, 3, 3⟩ : Frequency).npoints = ([1, 2, 3] : List ℚ).length := by
  refine ⟨(C9_thm []).1 rfl, (C9_thm [1, 2, 3]).2 ⟨[1, 2, 3], 1, 3, 3⟩ (by decide)⟩

/-- C2 confirmed: for a parse whose extension fixes rank r, every
successfully returned Touchstone has its tensor of shape
(frequency-count, r, r) with frequency-count the length of the
accumulated frequency list and rank r fixed before line processing; and
given that the line loop completed, finalization fails (with the typed
parse error standing for ShapeMismatch) exactly when the flat buffer
length is not frequency-count · r², in which case no result is
returned. -/
theorem C2_thm (ext : Option Line) (lines : List Line) (r : ℕ)
    (hr : rankFromExtension ext = .ok r) :
    (∀ t, touchstoneNew ext lines = .ok t →
      t.s_params.d1 = t.freqs.length ∧ t.s_params.d2 = r ∧ t.s_params.d3 = r ∧
        t.rank = r ∧ t.s_params.data.length = t.freqs.length * r * r) ∧
    (∀ st, parseLoop lines ⟨{ Touchstone.default with rank := r }, false, []⟩ = .ok st →
      (touchstoneNew ext lines = .err ↔
        ¬ st.buf.length = st.ts.freqs.length * r * r)) := by
  constructor
  · intro t h
    obtain ⟨r2, st, hr2, hst, hlen, ht⟩ := touchstoneNew_ok ext lines t h
    rw [hr] at hr2
    cases hr2
    have hrank : st.ts.rank = r := (parseLoop_inv lines _ st hst).1
    rw [hrank] at hlen
    subst ht
    exact ⟨rfl, hrank, hrank, hrank, hlen⟩
  · intro st hst
    have hrank : st.ts.rank = r := (parseLoop_inv lines _ st hst).1
    by_cases hc : st.buf.length = st.ts.freqs.length * r * r
    · simp [touchstoneNew, hr, hst, fromShapeVec3, hrank, hc]
    · simp [touchstoneNew, hr, hst, fromShapeVec3, hrank, hc]

/-- Witness for C2 at the concrete one-row `s1p` file: the parsed tensor
has shape (1, 1, 1) and the finalization-failure criterion evaluates. -/
theorem C2_wit :
    (sampleTouch.s_params.d1 = sampleTouch.freqs.length ∧ sampleTouch.s_params.d2 = 1 ∧
      sampleTouch.s_params.d3 = 1 ∧ sampleTouch.rank = 1 ∧
      sampleTouch.s_params.data.length = sampleTouch.freqs.length * 1 * 1) ∧
    (touchstoneNew sampleExt sampleLines = POutcome.err ↔
      ¬ sampleState.buf.length = sampleState.ts.freqs.length * 1 * 1) :=
  ⟨(C2_thm sampleExt sampleLines 1 (by decide)).1 sampleTouch (by decide),
   (C2_thm sampleExt sampleLines 1 (by decide)).2 sampleState (by decide)⟩

/-- C10 confirmed: a path with no extension at all undergoes no format
check — rank proceeds as 0 rather than failing — and such a parse can
return Ok with a tensor of shape (n, 0, 0); a line holding a single
numeric token is classified as a frequency row with no matrix data. -/
theorem C10_thm :
    rankFromExtension none = POutcome.ok 0 ∧
    (∀ lines t, touchstoneNew none lines = .ok t →
      t.rank = 0 ∧ t.s_params.d2 = 0 ∧ t.s_params.d3 = 0 ∧
        t.s_params.d1 = t.freqs.length) ∧
    (touchstoneNew none [s2l "1.0", s2l "2.5"]).toOption.map
        (fun t => (t.freqs, t.s_params.d1, t.s_params.d2, t.s_params.d3)) =
      some ([1, mkRat 5 2], 2, 0, 0) := by
  refine ⟨rfl, ?_, by decide⟩
  intro lines t h
  obtain ⟨r2, st, hr2, hst, hlen, ht⟩ := touchstoneNew_ok none lines t h
  have h02 : (POutcome.ok 0 : POutcome ℕ) = .ok r2 := hr2
  cases h02
  have hrank : st.ts.rank = 0 := (parseLoop_inv lines _ st hst).1
  subst ht
  exact ⟨hrank, hrank, hrank, rfl⟩

/-- Witness for C10 at the concrete two-line extension-less file: the
result has rank 0 and tensor shape (2, 0, 0). -/
theorem C10_wit :
    (⟨.One, [], none, none, none, none, TouchstoneOptions.default, [1, mkRat 5 2],
        ⟨2, 0, 0, []⟩, 0, none⟩ : Touchstone).rank = 0 ∧
    (⟨.One, [], none, none, none, none, TouchstoneOptions.default, [1, mkRat 5 2],
        ⟨2, 0, 0, []⟩, 0, none⟩ : Touchstone).s_params.d2 = 0 ∧
    (⟨.One, [], none, none, none, none, TouchstoneOptions.default, [1, mkRat 5 2],
        ⟨2, 0, 0, []⟩, 0, none⟩ : Touchstone).s_params.d3 = 0 ∧
    (⟨.One, [], none, none, none, none, TouchstoneOptions.default, [1, mkRat 5 2],
        ⟨2, 0, 0, []⟩, 0, none⟩ : Touchstone).s_params.d1 =
      (⟨.One, [], none, none, none, none, TouchstoneOptions.default, [1, mkRat 5 2],
        ⟨2, 0, 0, []⟩, 0, none⟩ : Touchstone).freqs.length :=
  C10_thm.2.1 [s2l "1.0", s2l "2.5"]
    ⟨.One, [], none, none, none, none, TouchstoneOptions.default, [1, mkRat 5 2],
      ⟨2, 0, 0, []⟩, 0, none⟩ (by decide)

/-- C4 counterexample: the claim states that the option line is processed
at most once, so a later '#' line leaves the options unchanged.  In the
code the '#' branch carries no options-read guard: after "# hz" sets the
unit to Hz, the later line "# mhz" is parsed again and the final unit is
MHz, not Hz. -/
theorem C4_cx :
    (touchstoneNew (some (s2l "s1p")) [s2l "# hz", s2l "# mhz"]).toOption.map
        (fun t => t.options.unit) = some FreqUnit.MHz ∧
      (touchstoneNew (some (s2l "s1p")) [s2l "# hz", s2l "# mhz"]).toOption.map
        (fun t => t.options.unit) ≠ some FreqUnit.Hz := by decide

/-- C4 amended: every '#' line is processed (a later '#' line is parsed
again and can overwrite the options; the options-read flag only changes
comment handling); a file containing no '#' line keeps the defaults:
unit GHz, parameter kind S, value encoding magnitude-angle, reference
resistance 50.0. -/
theorem C4_thm :
    (∀ ext lines t, touchstoneNew ext lines = .ok t →
      (∀ l ∈ lines, (rustLower l).head? ≠ some '#') →
      t.options = TouchstoneOptions.default) ∧
    (∀ st (raw : Line) (rest : List Line) (pl : Line),
      trimEndL (rustLower raw) ≠ [] →
      commentStep st.optionsRead st.ts.comments (rustLower raw) = .proc pl →
      ¬((s2l "[version]").isPrefixOf pl = true) →
      ¬((s2l "[reference]").isPrefixOf pl = true) →
      ¬((s2l "[number of ports]").isPrefixOf pl = true) →
      ¬((s2l "[number of frequencies]").isPrefixOf pl = true) →
      ¬((s2l "[number of noise frequencies]").isPrefixOf pl = true) →
      ¬((s2l "[network data]").isPrefixOf pl = true) →
      ¬((s2l "[end]").isPrefixOf pl = true) →
      pl.head? = some '#' →
      parseLoop (raw :: rest) st =
        match parseOptionsLine pl st.ts.options with
        | .ok o => parseLoop rest
            { st with ts := { st.ts with options := o }, optionsRead := true }
        | .err => POutcome.err
        | .crash => POutcome.crash) := by
  constructor
  · intro ext lines t h hsharp
    obtain ⟨r2, st, hr2, hst, hlen, ht⟩ := touchstoneNew_ok ext lines t h
    rcases (parseLoop_inv lines _ st hst).2 with ⟨l, hl, hh⟩ | hopts
    · exact absurd hh (hsharp l hl)
    · subst ht
      exact hopts
  · intro st raw rest pl h1 h2 hv hrf hp hf hn hd he hhash
    have hstep : lineStep st raw rest.head? =
        (match parseOptionsLine pl st.ts.options with
          | POutcome.ok o =>
              StepRes.cont { st with ts := { st.ts with options := o }, optionsRead := true }
                false
          | POutcome.err => StepRes.fail
          | POutcome.crash => StepRes.die) := by
      simp only [lineStep, h2]
      rw [if_neg h1, if_neg hv, if_neg hrf, if_neg hp, if_neg hf, if_neg hn, if_neg hd,
        if_neg he, if_pos hhash]
    rw [parseLoop, hstep]
    cases parseOptionsLine pl st.ts.options <;> rfl

/-- Witness for C4: the sample file has no '#' line and keeps the default
options; and a '#' line presented to a parser whose options-read flag is
already set is still processed, overwriting the unit with MHz. -/
theorem C4_wit :
    sampleTouch.options = TouchstoneOptions.default ∧
    parseLoop [s2l "# mhz"] ⟨{ Touchstone.default with rank := 1 }, true, []⟩ =
      POutcome.ok ⟨{ Touchstone.default with
        rank := 1
        options := ⟨.MHz, .S, .MagAngle, 50⟩ }, true, []⟩ := by
  constructor
  · exact C4_thm.1 sampleExt sampleLines sampleTouch (by decide) (by decide)
  · have h := C4_thm.2 ⟨{ Touchstone.default with rank := 1 }, true, []⟩ (s2l "# mhz") []
      (s2l "# mhz") (by decide) (by decide) (by decide) (by decide) (by decide) (by decide)
      (by decide) (by decide) (by decide) (by decide)
    rw [h]
    decide

/-- C5 counterexample: the claim states that every entry of the
reference-impedance row is the options' reference resistance; parsing a
file whose option line declares R 15.063 yields options resistance
15.063, yet the built Network's z0 entry is the hardcoded 50+0j. -/
theorem C5_cx :
    (touchstoneNew (some (s2l "s1p")) [s2l "# r 15.063", s2l "1.0 0.5 0.5"]).toOption.map
        (fun t => t.options.resistance) = some (mkRat 15063 1000) ∧
      (networkFromSnp (some (s2l "s1p")) [s2l "# r 15.063", s2l "1.0 0.5 0.5"]).toOption.map
        (fun n => n.z0.data) = some [⟨50, 0⟩] ∧
      ¬((⟨50, 0⟩ : Cx) = ⟨mkRat 15063 1000, 0⟩) := by decide

/-- C5 amended: for every successfully parsed file with n frequency
samples, the NetworkModel carries a reference-impedance matrix of shape
(1, n) in which every entry is the hardcoded constant 50+0j, regardless
of the options' reference resistance. -/
theorem C5_thm (ext : Option Line) (lines : List Line) (net : Network)
    (h : networkFromSnp ext lines = .ok net) :
    net.z0.d1 = 1 ∧ net.z0.d2 = net.f.npoints ∧ ∀ c ∈ net.z0.data, c = ⟨50, 0⟩ := by
  unfold networkFromSnp at h
  split at h
  · cases h
  · cases h
  · rename_i t ht
    split at h
    · cases h
    · cases h
    · rename_i fr hfr
      cases h
      have hnp : fr.npoints = t.freqs.length := (frequencyFromVec_fields t.freqs fr hfr).2.2.2
      refine ⟨rfl, hnp.symm, ?_⟩
      intro c hc
      exact List.eq_of_mem_replicate hc

/-- Witness for C5 at the concrete one-row `s1p` file: the synthesized
z0 row has shape (1, 1). -/
theorem C5_wit : sampleNet.z0.d1 = 1 ∧ sampleNet.z0.d2 = sampleNet.f.npoints :=
  ⟨(C5_thm sampleExt sampleLines sampleNet (by decide)).1,
   (C5_thm sampleExt sampleLines sampleNet (by decide)).2.1⟩

/-- C3 counterexample: the claim states that a data row holding a token
that is not a valid number makes the parse fail with a typed error
surfaced to the caller; on the row "1.0 abc" the code instead panics
(unwrap on the failed float parse), which is not the typed error
result. -/
theorem C3_cx :
    touchstoneNew (some (s2l "s1p")) [s2l "1.0 abc"] = POutcome.crash ∧
      touchstoneNew (some (s2l "s1p")) [s2l "1.0 abc"] ≠ POutcome.err := by decide

/-- C3 amended: for every input whose next line is a data row containing
a token that is not a valid number, the parse aborts immediately by
panicking (unwrap on the failed parse), not by returning the typed
error, and no result is returned. -/
theorem C3_thm (st : PState) (raw : Line) (rest : List Line) (pl tok : Line)
    (h1 : trimEndL (rustLower raw) ≠ [])
    (h2 : commentStep st.optionsRead st.ts.comments (rustLower raw) = .proc pl)
    (h3 : noDirective pl)
    (h4 : tok ∈ splitWs pl) (h5 : parseF64 tok = none) :
    parseLoop (raw :: rest) st = POutcome.crash := by
  obtain ⟨hv, hrf, hp, hf, hn, hd, he, hh⟩ := h3
  have hmap : parseAllF64 (splitWs pl) = none := parseAllF64_none (splitWs pl) tok h4 h5
  have hstep : lineStep st raw rest.head? = .die := by
    simp only [lineStep, h2]
    rw [if_neg h1, if_neg hv, if_neg hrf, if_neg hp, if_neg hf, if_neg hn, if_neg hd,
      if_neg he, if_neg hh]
    unfold dataRowStep
    rw [hmap]
  rw [parseLoop, hstep]

/-- Witness for C3: on the single data row "1.0 abc" (token "abc" fails
the float parse) the loop panics. -/
theorem C3_wit :
    parseLoop [s2l "1.0 abc"] ⟨{ Touchstone.default with rank := 1 }, false, []⟩ =
      POutcome.crash :=
  C3_thm ⟨{ Touchstone.default with rank := 1 }, false, []⟩ (s2l "1.0 abc") []
    (s2l "1.0 abc") (s2l "abc") (by decide) (by decide) (by decide) (by decide) (by decide)

/-- C6 counterexample: the claim states that inline trailing values after
the '[reference]' tag are parsed immediately as the reference-impedance
list; the code instead single-space-splits the whole line including the
tag and panics unwrap-parsing "[reference]" as a float. -/
theorem C6_cx :
    touchstoneNew (some (s2l "s6p")) [s2l "[reference] 15.063"] = POutcome.crash ∧
      touchstoneNew (some (s2l "s6p")) [s2l "[reference] 15.063"] ≠ POutcome.err := by decide

/-- C6 amended: a '[reference]' directive with no trailing text reads
exactly one more physical line, single-space-splits it and stores the
parsed floats as the reference list; a '[reference]' directive with
inline trailing values panics, because the whole line including the
bracketed tag is split and the tag token fails the float parse. -/
theorem C6_thm :
    (∀ st (raw nxt : Line) (rest : List Line) (pl : Line) (vs : List ℚ),
      trimEndL (rustLower raw) ≠ [] →
      commentStep st.optionsRead st.ts.comments (rustLower raw) = .proc pl →
      ¬((s2l "[version]").isPrefixOf pl = true) →
      (s2l "[reference]").isPrefixOf pl = true →
      trimL (stripTag (s2l "[reference]") pl) = [] →
      parseAllF64 (splitChar ' ' (trimEndL nxt)) = some vs →
      parseLoop (raw :: nxt :: rest) st =
        parseLoop rest { st with ts := { st.ts with reference := some vs } }) ∧
    (∀ st (raw : Line) (rest : List Line) (pl : Line),
      trimEndL (rustLower raw) ≠ [] →
      commentStep st.optionsRead st.ts.comments (rustLower raw) = .proc pl →
      ¬((s2l "[version]").isPrefixOf pl = true) →
      (s2l "[reference]").isPrefixOf pl = true →
      ¬(trimL (stripTag (s2l "[reference]") pl) = []) →
      parseLoop (raw :: rest) st = POutcome.crash) := by
  constructor
  · intro st raw nxt rest pl vs h1 h2 hv hrf hemp hvs
    have hstep : lineStep st raw (nxt :: rest).head? =
        .cont { st with ts := { st.ts with reference := some vs } } true := by
      simp only [lineStep, h2]
      rw [if_neg h1, if_neg hv, if_pos hrf, if_pos hemp]
      simp only [List.head?_cons, Option.getD_some]
      rw [hvs]
    rw [parseLoop, hstep]
  · intro st raw rest pl h1 h2 hv hrf hemp
    obtain ⟨pb, rfl⟩ : ∃ pb, pl = '[' :: pb := by
      cases pl with
      | nil => cases hrf
      | cons a pb =>
        have hrf2 := hrf
        rw [show (s2l "[reference]") = '[' :: s2l "reference]" from rfl] at hrf2
        simp only [List.isPrefixOf, Bool.and_eq_true, beq_iff_eq] at hrf2
        exact ⟨pb, by rw [hrf2.1]⟩
    have htrim : trimEndL ('[' :: pb) = '[' :: trimEndL pb :=
      trimEndL_cons_not_ws '[' pb (by decide)
    obtain ⟨ts2, hts⟩ := splitCharAux_first ' ' ('[' :: trimEndL pb) []
    have hmap : parseAllF64 (splitChar ' ' (trimEndL ('[' :: pb))) = none := by
      rw [htrim]
      unfold splitChar
      rw [hts]
      simp only [List.reverse_nil, List.nil_append, List.takeWhile_cons]
      norm_num
      exact parseAllF64_head_bracket _ _
    have hstep : lineStep st raw rest.head? = .die := by
      simp only [lineStep, h2]
      rw [if_neg h1, if_neg hv, if_pos hrf, if_neg hemp, hmap]
    rw [parseLoop, hstep]

/-- Witness for C6: the bare '[reference]' directive followed by six
copies of 15.063 stores the six-element list; the inline form
"[reference] 1.0" panics. -/
theorem C6_wit :
    parseLoop [s2l "[reference]", s2l "15.063 15.063 15.063 15.063 15.063 15.063"]
        ⟨{ Touchstone.default with rank := 6 }, false, []⟩ =
      parseLoop []
        ⟨{ Touchstone.default with
            rank := 6
            reference := some (List.replicate 6 (mkRat 15063 1000)) }, false, []⟩ ∧
    parseLoop [s2l "[reference] 1.0"] ⟨{ Touchstone.default with rank := 6 }, false, []⟩ =
      POutcome.crash := by
  constructor
  · exact C6_thm.1 ⟨{ Touchstone.default with rank := 6 }, false, []⟩ (s2l "[reference]")
      (s2l "15.063 15.063 15.063 15.063 15.063 15.063") [] (s2l "[reference]")
      (List.replicate 6 (mkRat 15063 1000)) (by decide) (by decide) (by decide) (by decide)
      (by decide) (by decide)
  · exact C6_thm.2 ⟨{ Touchstone.default with rank := 6 }, false, []⟩ (s2l "[reference] 1.0")
      [] (s2l "[reference] 1.0") (by decide) (by decide) (by decide) (by decide) (by decide)

theorem dropWhileChar_cons_self (c : Char) (l : Line) :
    (c :: l).dropWhile (fun x => x = c) = l.dropWhile (fun x => x = c) := by
  simp [List.dropWhile_cons]

theorem dropWhile_eq_self_of_digits (c : Char) (hc : c.isDigit = false) (l : Line)
    (hl : ∀ x ∈ l, x.isDigit = true) : l.dropWhile (fun x => x = c) = l := by
  cases l with
  | nil => rfl
  | cons a t =>
    have ha := hl a (List.mem_cons_self _ _)
    have hne : ¬(a = c) := isDigit_ne a c ha hc
    simp [List.dropWhile_cons, hne]

theorem rankFromExtension_snp (ds : Line) (hne : ds ≠ [])
    (hdig : ∀ c ∈ ds, c.isDigit = true) :
    rankFromExtension (some ('s' :: (ds ++ ['p']))) = .ok (digitsVal ds) := by
  cases ds with
  | nil => cases hne rfl
  | cons d ds2 =>
    have hd : d.isDigit = true := hdig d (List.mem_cons_self _ _)
    have hlast : ('s' :: ((d :: ds2) ++ ['p'])).getLast? = some 'p' := by
      rw [← List.cons_append]
      exact List.getLast?_concat _
    have hstrip1 : stripLeadChar 's' ('s' :: ((d :: ds2) ++ ['p'])) = (d :: ds2) ++ ['p'] := by
      unfold stripLeadChar
      have hds : ¬(d = 's') := isDigit_ne d 's' hd (by decide)
      simp [List.dropWhile_cons, hds]
    have hstrip2 : stripTrailChar 'p' ((d :: ds2) ++ ['p']) = d :: ds2 := by
      have hr1 : ((d :: ds2) ++ ['p']).reverse = 'p' :: (d :: ds2).reverse := by
        rw [List.reverse_append]
        rfl
      have hrev : ((d :: ds2).reverse).dropWhile (fun x => x = 'p') = (d :: ds2).reverse := by
        refine dropWhile_eq_self_of_digits 'p' (by decide) _ ?_
        intro x hx
        exact hdig x (List.mem_reverse.mp hx)
      unfold stripTrailChar
      rw [hr1, dropWhileChar_cons_self, hrev, List.reverse_reverse]
    have hpn : parseNatRust (d :: ds2) = some (digitsVal (d :: ds2)) := by
      simp only [parseNatRust]
      rw [if_neg (isDigit_ne d '+' hd (by decide))]
      rw [if_pos ⟨List.cons_ne_nil d ds2, List.all_eq_true.mpr hdig⟩]
    simp only [rankFromExtension]
    rw [if_pos ⟨rfl, hlast⟩, hstrip1, hstrip2, hpn]

/-- C7 counterexample: the claim states that extension matching is
case-insensitive and that 'ts' fails with a typed NotImplemented error;
in the code 'ts' hits `unimplemented!()` — a panic, not a typed error —
and the uppercase extension 'S2P' is rejected instead of fixing rank
2. -/
theorem C7_cx :
    rankFromExtension (some (s2l "ts")) = POutcome.crash ∧
      rankFromExtension (some (s2l "ts")) ≠ POutcome.err ∧
      rankFromExtension (some (s2l "S2P")) = POutcome.err := by decide

/-- C7 amended: an extension consisting of a lowercase 's', digits, and a
lowercase 'p' fixes rank to the digits' value before any line is
processed (matching is case-sensitive); the extension 'ts' panics via
`unimplemented!()` rather than returning a typed error; any other
extension not starting with 's' and ending with 'p' fails with the typed
parse error. -/
theorem C7_thm :
    (∀ ds : Line, ds ≠ [] → (∀ c ∈ ds, c.isDigit = true) →
      rankFromExtension (some ('s' :: (ds ++ ['p']))) = .ok (digitsVal ds)) ∧
    (∀ (ds : Line) (lines : List Line) (t : Touchstone), ds ≠ [] →
      (∀ c ∈ ds, c.isDigit = true) →
      touchstoneNew (some ('s' :: (ds ++ ['p']))) lines = .ok t →
      t.rank = digitsVal ds) ∧
    rankFromExtension (some (s2l "ts")) = POutcome.crash ∧
    (∀ e : Line, ¬(e.head? = some 's' ∧ e.getLast? = some 'p') → e ≠ s2l "ts" →
      rankFromExtension (some e) = POutcome.err) := by
  refine ⟨fun ds hne hdig => rankFromExtension_snp ds hne hdig, ?_, by decide, ?_⟩
  · intro ds lines t hne hdig h
    obtain ⟨r2, st, hr2, hst, hlen, ht⟩ := touchstoneNew_ok _ lines t h
    rw [rankFromExtension_snp ds hne hdig] at hr2
    cases hr2
    have hrank : st.ts.rank = digitsVal ds := (parseLoop_inv lines _ st hst).1
    subst ht
    exact hrank
  · intro e hno hts
    simp only [rankFromExtension]
    rw [if_neg hno, if_neg hts]

/-- Witness for C7: the digit list "1" gives extension s1p and rank 1
(also through a full parse of the sample file), and the extension "txt"
is rejected with the typed parse error. -/
theorem C7_wit :
    rankFromExtension (some ('s' :: (s2l "1" ++ ['p']))) = POutcome.ok (digitsVal (s2l "1")) ∧
    sampleTouch.rank = digitsVal (s2l "1") ∧
    rankFromExtension (some (s2l "txt")) = POutcome.err := by
  refine ⟨C7_thm.1 (s2l "1") (by decide) (by decide),
    C7_thm.2.1 (s2l "1") sampleLines sampleTouch (by decide) (by decide) (by decide),
    C7_thm.2.2.2 (s2l "txt") (by decide) (by decide)⟩

end SRF
